import Mathlib

/-!
Shallow embedding of the AstroViewSim visibility pipeline
(MeshProcessor.py, GeometricVisibility.py, LightingAnalysis.py,
VisibilityStats.py, VisibilityAnalyzer.py).

Numpy float arrays of shape (3,) become `Vec3` over `ℝ`; boolean masks over
the patches become `Fin n → Prop`.  The trimesh ray caster
`mesh.ray.intersects_location` is an external oracle: it is modelled as a
function from a ray (origin, direction) to the list of hit locations, which
is the flattened `(locations, index_ray)` output grouped by `index_ray`.
Python code that raises an exception is modelled with `Option`
(`none` = the call raises).
-/

namespace AstroView

noncomputable section

/-- A 3-vector of reals, modelling a numpy array of shape (3,). -/
structure Vec3 where
  x : ℝ
  y : ℝ
  z : ℝ

/-- Componentwise subtraction, `a - b` on numpy arrays. -/
def Vec3.sub (a b : Vec3) : Vec3 := ⟨a.x - b.x, a.y - b.y, a.z - b.z⟩

instance : Sub Vec3 := ⟨Vec3.sub⟩

/-- Componentwise addition. -/
def Vec3.add (a b : Vec3) : Vec3 := ⟨a.x + b.x, a.y + b.y, a.z + b.z⟩

instance : Add Vec3 := ⟨Vec3.add⟩

/-- Scalar times vector, `r * v` on numpy arrays. -/
def Vec3.smul (r : ℝ) (v : Vec3) : Vec3 := ⟨r * v.x, r * v.y, r * v.z⟩

instance : SMul ℝ Vec3 := ⟨Vec3.smul⟩

/-- Vector divided by a scalar, `v / r` on numpy arrays. -/
def Vec3.divs (v : Vec3) (r : ℝ) : Vec3 := ⟨v.x / r, v.y / r, v.z / r⟩

/-- `np.dot` / `np.einsum` row dot product. -/
def dot3 (a b : Vec3) : ℝ := a.x * b.x + a.y * b.y + a.z * b.z

/-- `np.cross` of two 3-vectors. -/
def cross3 (a b : Vec3) : Vec3 :=
  ⟨a.y * b.z - a.z * b.y, a.z * b.x - a.x * b.z, a.x * b.y - a.y * b.x⟩

/-- `np.linalg.norm` of a 3-vector. -/
noncomputable def norm3 (v : Vec3) : ℝ := Real.sqrt (dot3 v v)

/-- `np.deg2rad`. -/
noncomputable def deg2rad (d : ℝ) : ℝ := d * Real.pi / 180

/-- `GeometricVisibility.check_fov_visibility`, per patch `j`.
The numpy code is vectorised over all patches; entry `j` of the returned
boolean mask depends only on `patch_positions[j]` and `patch_normals[j]`,
which is what this predicate computes, following the source line by line. -/
noncomputable def check_fov_visibility (positions normals : Fin n → Vec3)
    (camera_pos target : Vec3)
    (fov_x_deg fov_y_deg max_angle_deg : ℝ) (j : Fin n) : Prop :=
  let z_cam0 := target - camera_pos
  let z_cam := z_cam0.divs (norm3 z_cam0)
  let world_up : Vec3 := ⟨0, 0, 1⟩
  let x_cam0 := cross3 z_cam world_up
  let x_cam := x_cam0.divs (norm3 x_cam0)
  let y_cam := cross3 x_cam z_cam
  let view_vector := positions j - camera_pos
  let z_coord := dot3 view_vector z_cam
  let in_front := z_coord > 0
  let view_distance := norm3 view_vector
  let view_direction := view_vector.divs view_distance
  let dot_product := dot3 (normals j) view_direction
  let facing_camera := dot_product < 0
  let cos_max_angle := Real.cos (deg2rad max_angle_deg)
  let good_viewing_angle := dot_product ≤ -cos_max_angle
  let x_coord := dot3 view_vector x_cam
  let y_coord := dot3 view_vector y_cam
  let tan_x := |x_coord / z_coord|
  let tan_y := |y_coord / z_coord|
  let within_fov_x := tan_x ≤ Real.tan (deg2rad (fov_x_deg / 2))
  let within_fov_y := tan_y ≤ Real.tan (deg2rad (fov_y_deg / 2))
  in_front ∧ facing_camera ∧ good_viewing_angle ∧ within_fov_x ∧ within_fov_y

/-- A ray caster: `mesh.ray.intersects_location` restricted to a single ray
(origin, direction), giving the list of hit locations of that ray.  trimesh
returns the hits of all rays flattened, each tagged with its ray index in
`index_ray`; the source loops over `index_ray == i`, recovering exactly this
per-ray list, so the oracle is modelled per ray. -/
def RayCaster : Type := Vec3 → Vec3 → List Vec3

/-- The per-candidate occlusion test inside
`GeometricVisibility.filter_occluded_patches`: the ray from the camera toward
the candidate position has some hit strictly closer (beyond tolerance) than
the candidate itself. -/
def isOccludedFromCamera (raycast : RayCaster) (camera_pos p : Vec3) : Prop :=
  let ray_vector := p - camera_pos
  let ray_distance := norm3 ray_vector
  let ray_direction := ray_vector.divs ray_distance
  let tolerance := ray_distance * 1e-6 + 1e-8
  ∃ loc ∈ raycast camera_pos ray_direction,
    norm3 (loc - camera_pos) < ray_distance - tolerance

open Classical in
/-- `GeometricVisibility.filter_occluded_patches`, per patch `j`.  The source
copies `candidate_mask`, and writes `~is_occluded` back into the entries where
the mask is true (`visible_mask[candidate_mask] = ~is_occluded`); entries
outside the candidate set keep the copied value.  The early returns (empty
mask, zero total intersections) yield the same mask as this pointwise form:
with an empty mask no entry is rewritten, and with no intersection at all no
candidate is occluded. -/
def filter_occluded_patches (raycast : RayCaster) (positions : Fin n → Vec3)
    (camera_pos : Vec3) (candidate_mask : Fin n → Prop) : Fin n → Prop :=
  fun j =>
    if candidate_mask j then ¬ isOccludedFromCamera raycast camera_pos (positions j)
    else candidate_mask j

/-- `LightingAnalysis.check_sun_illumination`, per patch `j`. -/
def check_sun_illumination (normals : Fin n → Vec3) (sun_direction : Vec3)
    (max_sun_angle_deg : ℝ) (j : Fin n) : Prop :=
  let dot_product := dot3 (normals j) sun_direction
  let facing_sun := dot_product > 0
  let cos_max_angle := Real.cos (deg2rad max_sun_angle_deg)
  let good_sun_angle := dot_product ≥ cos_max_angle
  facing_sun ∧ good_sun_angle

/-- `LightingAnalysis.check_reflection_conditions`, per patch `j`, with the
parameters of its own signature (positions, normals, camera, sun direction,
minimum reflection angle). -/
def check_reflection_conditions (positions normals : Fin n → Vec3)
    (camera_pos sun_direction : Vec3) (min_reflection_angle_deg : ℝ)
    (j : Fin n) : Prop :=
  let view_vector := camera_pos - positions j
  let view_direction := view_vector.divs (norm3 view_vector)
  let dot_nl := dot3 (normals j) sun_direction
  let reflection0 := (2 * dot_nl) • normals j - sun_direction
  let reflection_direction := reflection0.divs (norm3 reflection0)
  let dot_rv := dot3 reflection_direction view_direction
  let cos_max_angle := Real.cos (deg2rad min_reflection_angle_deg)
  dot_rv ≥ cos_max_angle

/-- The per-candidate shadow test inside
`LightingAnalysis.filter_sun_occluded`, for the already normalised sun
direction `sun_unit`: the ray starts `1e-2` before the patch along the sun
direction, and the patch is shadowed when some hit lies strictly closer to
that origin (beyond tolerance) than the patch itself. -/
def isShadowed (raycast : RayCaster) (sun_unit p : Vec3) : Prop :=
  let ray_origin := p - (1e-2 : ℝ) • sun_unit
  let actual_dist := norm3 (p - ray_origin)
  let tolerance := actual_dist * 1e-6 + 1e-8
  ∃ loc ∈ raycast ray_origin sun_unit,
    norm3 (loc - ray_origin) < actual_dist - tolerance

open Classical in
/-- `LightingAnalysis.filter_sun_occluded`, per patch `j`, with the same
write-back structure as `filter_occluded_patches`
(`illuminated_mask[candidate_mask] = ~is_shadowed`).  The source normalises
`sun_direction` after the empty-mask early return; when the mask is empty the
returned mask is the input either way. -/
def filter_sun_occluded (raycast : RayCaster) (positions : Fin n → Vec3)
    (candidate_mask : Fin n → Prop) (sun_direction : Vec3) : Fin n → Prop :=
  fun j =>
    let sun_unit := sun_direction.divs (norm3 sun_direction)
    if candidate_mask j then ¬ isShadowed raycast sun_unit (positions j)
    else candidate_mask j

/-- `VisibilityStats.__init__` (VisibilityStats.py), with the fields in the
positional order of the constructor and the same defaults.  Python is
dynamically typed, so the types of `visible_indices`, `incidence_angles` and
`viewing_angles` are parameters: the normal path of the analyzer passes
arrays, while its short-circuit path passes an `int` and two `float`s into
those slots. -/
structure VisibilityStats (ι θ φ : Type) where
  geometric_visible : ℕ
  light_illuminated : ℕ
  reflection_good : ℕ
  light_unoccluded : ℕ
  final_visible : ℕ
  visible_indices : ι
  incidence_angles : θ
  viewing_angles : φ
  total_patches : ℕ := 0
  visible_area : ℝ := 0
  total_area : ℝ := 0

/-- The stats object built on the short-circuit path of
`VisibilityAnalyzer.analyze_visibility`:
`VisibilityStats(0, 0, 0, 0, 0, len(self.patch_positions), 0.0, 0.0)`.
All eight arguments are positional, so `len(self.patch_positions)` binds the
sixth parameter `visible_indices`, the two `0.0` bind `incidence_angles` and
`viewing_angles`, and `total_patches`, `visible_area`, `total_area` keep
their defaults. -/
def emptyStats (numPatches : ℕ) : VisibilityStats ℕ ℝ ℝ :=
  { geometric_visible := 0
    light_illuminated := 0
    reflection_good := 0
    light_unoccluded := 0
    final_visible := 0
    visible_indices := numPatches
    incidence_angles := 0
    viewing_angles := 0 }

open Classical in
/-- `VisibilityAnalyzer.analyze_visibility`.  After FOV culling and camera
occlusion filtering it short-circuits when no candidate remains
(`len(candidate_indices) == 0`), returning the all-false mask and
`emptyStats`.  Otherwise it reaches
`LightingAnalysis.check_reflection_conditions(candidate_positions,
camera_pos, sun_direction, max_reflection_angle_deg)`: this call omits the
`patch_normals` argument, so `camera_pos` binds `patch_normals`,
`sun_direction` binds `camera_pos` and the float `max_reflection_angle_deg`
binds `sun_direction`; evaluating `sun_direction[None, :]` there subscripts a
float and raises `TypeError`.  The raising path is `none`. -/
def analyze_visibility (raycast : RayCaster) (positions normals : Fin n → Vec3)
    (camera_pos sun_direction target : Vec3)
    (fov_x_deg fov_y_deg max_viewing_angle_deg max_sun_angle_deg
      max_reflection_angle_deg : ℝ) :
    Option ((Fin n → Prop) × VisibilityStats ℕ ℝ ℝ) :=
  let geometric_visible := check_fov_visibility positions normals camera_pos
    target fov_x_deg fov_y_deg max_viewing_angle_deg
  let unoccluded_mask := filter_occluded_patches raycast positions camera_pos
    geometric_visible
  if ∃ j, unoccluded_mask j then none
  else some (fun _ => False, emptyStats n)

/-- `MeshProcessor.load_and_process_mesh`, normal of one triangular face
`(a, b, c)`: `normals / np.maximum(norms, 1e-8)` applied to the face's cross
product. -/
def patchNormal (a b c : Vec3) : Vec3 :=
  let v1 := b - a
  let v2 := c - a
  let nrm := cross3 v1 v2
  nrm.divs (max (norm3 nrm) 1e-8)

/-- The camera z axis built by `check_fov_visibility`:
`(target - camera_pos)` normalised. -/
def zcamOf (camera_pos target : Vec3) : Vec3 :=
  (target - camera_pos).divs (norm3 (target - camera_pos))

/-- The camera x axis built by `check_fov_visibility`:
`cross(z_cam, world_up)` normalised, with `world_up = (0, 0, 1)`. -/
def xcamOf (camera_pos target : Vec3) : Vec3 :=
  (cross3 (zcamOf camera_pos target) ⟨0, 0, 1⟩).divs
    (norm3 (cross3 (zcamOf camera_pos target) ⟨0, 0, 1⟩))

/-- The camera y axis built by `check_fov_visibility`: `cross(x_cam, z_cam)`. -/
def ycamOf (camera_pos target : Vec3) : Vec3 :=
  cross3 (xcamOf camera_pos target) (zcamOf camera_pos target)

/-- A ray caster reporting no intersection for any ray, for concrete runs. -/
def raycastEmpty : RayCaster := fun _ _ => []

/-- A ray caster that reports exactly one hit, at the ray origin itself, for
concrete runs. -/
def raycastSelf : RayCaster := fun o _ => [o]

/-- One patch sitting at the origin. -/
def zeroPos : Fin 1 → Vec3 := fun _ => ⟨0, 0, 0⟩

/-- One patch at `(0, 0, 1)`. -/
def onePos : Fin 1 → Vec3 := fun _ => ⟨0, 0, 1⟩

/-- The normal of the origin patch in the concrete camera scene: it points
from the patch toward the camera. -/
def sceneNrm : Fin 1 → Vec3 := fun _ => ⟨0, -1, 0⟩

/-- The camera of the concrete scene, on the negative y axis looking at the
origin. -/
def sceneCam : Vec3 := ⟨0, -1, 0⟩

end

open Classical

lemma Vec3.sub_def (a b : Vec3) : a - b = ⟨a.x - b.x, a.y - b.y, a.z - b.z⟩ := rfl

lemma Vec3.smul_def (r : ℝ) (v : Vec3) : r • v = ⟨r * v.x, r * v.y, r * v.z⟩ := rfl

lemma dot3_self_nonneg (v : Vec3) : 0 ≤ dot3 v v := by
  unfold dot3
  nlinarith [mul_self_nonneg v.x, mul_self_nonneg v.y, mul_self_nonneg v.z]

/-- Norm of a vector divided by a scalar. -/
lemma norm3_divs (v : Vec3) (r : ℝ) : norm3 (v.divs r) = norm3 v / |r| := by
  have h : dot3 (v.divs r) (v.divs r) = dot3 v v / r ^ 2 := by
    simp only [dot3, Vec3.divs]
    ring
  unfold norm3
  rw [h, Real.sqrt_div (dot3_self_nonneg v), Real.sqrt_sq_eq_abs]

/-- `check_fov_visibility` unfolded to the five tests of the source, stated
with the camera frame names. -/
lemma check_fov_visibility_iff (positions normals : Fin n → Vec3)
    (camera_pos target : Vec3) (fov_x_deg fov_y_deg max_angle_deg : ℝ)
    (j : Fin n) :
    check_fov_visibility positions normals camera_pos target fov_x_deg
        fov_y_deg max_angle_deg j ↔
      (dot3 (positions j - camera_pos) (zcamOf camera_pos target) > 0 ∧
       dot3 (normals j)
         ((positions j - camera_pos).divs (norm3 (positions j - camera_pos))) < 0 ∧
       dot3 (normals j)
         ((positions j - camera_pos).divs (norm3 (positions j - camera_pos))) ≤
           -Real.cos (deg2rad max_angle_deg) ∧
       |dot3 (positions j - camera_pos) (xcamOf camera_pos target) /
          dot3 (positions j - camera_pos) (zcamOf camera_pos target)| ≤
         Real.tan (deg2rad (fov_x_deg / 2)) ∧
       |dot3 (positions j - camera_pos) (ycamOf camera_pos target) /
          dot3 (positions j - camera_pos) (zcamOf camera_pos target)| ≤
         Real.tan (deg2rad (fov_y_deg / 2))) := Iff.rfl

lemma scene_frame_z : zcamOf sceneCam ⟨0, 0, 0⟩ = ⟨0, 1, 0⟩ := by
  norm_num [zcamOf, sceneCam, Vec3.sub_def, Vec3.divs, norm3, dot3,
    Real.sqrt_one, Vec3.mk.injEq]

lemma scene_frame_x : xcamOf sceneCam ⟨0, 0, 0⟩ = ⟨1, 0, 0⟩ := by
  unfold xcamOf
  rw [scene_frame_z]
  norm_num [cross3, Vec3.divs, norm3, dot3, Real.sqrt_one, Vec3.mk.injEq]

lemma scene_frame_y : ycamOf sceneCam ⟨0, 0, 0⟩ = ⟨0, 0, 1⟩ := by
  unfold ycamOf
  rw [scene_frame_x, scene_frame_z]
  norm_num [cross3, Vec3.mk.injEq]

/-- In the concrete scene the origin patch passes the FOV cull with
`fov_x = fov_y = 90` and `max_angle = 60` degrees. -/
lemma scene_fov_visible :
    check_fov_visibility zeroPos sceneNrm sceneCam ⟨0, 0, 0⟩ 90 90 60 (0 : Fin 1) := by
  have hcos : Real.cos (deg2rad 60) = 1 / 2 := by
    unfold deg2rad
    rw [show (60 : ℝ) * Real.pi / 180 = Real.pi / 3 from by ring]
    exact Real.cos_pi_div_three
  have htan : Real.tan (deg2rad (45 : ℝ)) = 1 := by
    unfold deg2rad
    rw [show (45 : ℝ) * Real.pi / 180 = Real.pi / 4 from by ring]
    exact Real.tan_pi_div_four
  rw [check_fov_visibility_iff, scene_frame_z, scene_frame_x, scene_frame_y]
  refine ⟨?_, ?_, ?_, ?_, ?_⟩ <;>
    norm_num [zeroPos, sceneNrm, sceneCam, dot3, Vec3.sub_def, Vec3.divs,
      norm3, Real.sqrt_one, hcos, htan]

/-- C5: for every patch, the field-of-view culler marks it visible iff all
five conditions hold for the view vector `v = position − camera` and the
camera frame `(x_cam, y_cam, z_cam)` built from the target and
`world_up = (0, 0, 1)`: `v·z_cam > 0`; `normal·normalize(v) < 0`;
`normal·normalize(v) ≤ −cos(max_viewing_angle_deg)`;
`|v·x_cam / v·z_cam| ≤ tan(fov_x_deg/2)`; and
`|v·y_cam / v·z_cam| ≤ tan(fov_y_deg/2)`. -/
theorem fov_visibility_characterization (positions normals : Fin n → Vec3)
    (camera_pos target : Vec3) (fov_x_deg fov_y_deg max_angle_deg : ℝ)
    (j : Fin n) :
    check_fov_visibility positions normals camera_pos target fov_x_deg
        fov_y_deg max_angle_deg j ↔
      (dot3 (positions j - camera_pos) (zcamOf camera_pos target) > 0 ∧
       dot3 (normals j)
         ((positions j - camera_pos).divs (norm3 (positions j - camera_pos))) < 0 ∧
       dot3 (normals j)
         ((positions j - camera_pos).divs (norm3 (positions j - camera_pos))) ≤
           -Real.cos (deg2rad max_angle_deg) ∧
       |dot3 (positions j - camera_pos) (xcamOf camera_pos target) /
          dot3 (positions j - camera_pos) (zcamOf camera_pos target)| ≤
         Real.tan (deg2rad (fov_x_deg / 2)) ∧
       |dot3 (positions j - camera_pos) (ycamOf camera_pos target) /
          dot3 (positions j - camera_pos) (zcamOf camera_pos target)| ≤
         Real.tan (deg2rad (fov_y_deg / 2))) :=
  check_fov_visibility_iff positions normals camera_pos target fov_x_deg
    fov_y_deg max_angle_deg j

/-- C7: the field-of-view culler is monotonic in the viewing-angle
threshold: with everything else fixed, for thresholds `a ≤ b` in
`[0°, 180°]`, every patch visible with `max_angle_deg = a` is visible with
`max_angle_deg = b`. -/
theorem fov_monotone_max_viewing_angle (positions normals : Fin n → Vec3)
    (camera_pos target : Vec3) (fov_x_deg fov_y_deg a b : ℝ)
    (ha : 0 ≤ a) (hab : a ≤ b) (hb : b ≤ 180) (j : Fin n)
    (hvis : check_fov_visibility positions normals camera_pos target
      fov_x_deg fov_y_deg a j) :
    check_fov_visibility positions normals camera_pos target fov_x_deg
      fov_y_deg b j := by
  rw [check_fov_visibility_iff] at hvis ⊢
  obtain ⟨h1, h2, h3, h4, h5⟩ := hvis
  refine ⟨h1, h2, ?_, h4, h5⟩
  have hcos : Real.cos (deg2rad b) ≤ Real.cos (deg2rad a) := by
    apply Real.cos_le_cos_of_nonneg_of_le_pi
    · unfold deg2rad
      have := mul_nonneg ha Real.pi_pos.le
      linarith
    · unfold deg2rad
      have := mul_le_mul_of_nonneg_right hb Real.pi_pos.le
      linarith
    · unfold deg2rad
      have := mul_le_mul_of_nonneg_right hab Real.pi_pos.le
      linarith
  linarith

/-- Witness for C7 at the concrete scene: the origin patch visible with
threshold 60° stays visible when the threshold widens to 90°. -/
theorem fov_monotone_max_viewing_angle_witness :
    (0 : ℝ) ≤ 60 ∧ (60 : ℝ) ≤ 90 ∧ (90 : ℝ) ≤ 180 ∧
    check_fov_visibility zeroPos sceneNrm sceneCam ⟨0, 0, 0⟩ 90 90 60 (0 : Fin 1) ∧
    check_fov_visibility zeroPos sceneNrm sceneCam ⟨0, 0, 0⟩ 90 90 90 (0 : Fin 1) :=
  ⟨by norm_num, by norm_num, by norm_num, scene_fov_visible,
    fov_monotone_max_viewing_angle zeroPos sceneNrm sceneCam ⟨0, 0, 0⟩ 90 90
      60 90 (by norm_num) (by norm_num) (by norm_num) (0 : Fin 1)
      scene_fov_visible⟩

/-- C9: every extracted patch normal equals
`cross(v1−v0, v2−v0) / max(‖cross‖, 1e-8)`; a face whose cross product has
magnitude at least `1e-8` gets an exactly unit-length normal, and a
degenerate face yields a defined vector of length below 1. -/
theorem patch_normal_normalization (a b c : Vec3) :
    patchNormal a b c =
      (cross3 (b - a) (c - a)).divs (max (norm3 (cross3 (b - a) (c - a))) 1e-8) ∧
    (1e-8 ≤ norm3 (cross3 (b - a) (c - a)) → norm3 (patchNormal a b c) = 1) ∧
    (norm3 (cross3 (b - a) (c - a)) < 1e-8 → norm3 (patchNormal a b c) < 1) := by
  refine ⟨rfl, ?_, ?_⟩
  · intro h
    have hpos : 0 < norm3 (cross3 (b - a) (c - a)) :=
      lt_of_lt_of_le (by norm_num) h
    show norm3 ((cross3 (b - a) (c - a)).divs
      (max (norm3 (cross3 (b - a) (c - a))) 1e-8)) = 1
    rw [norm3_divs, max_eq_left h, abs_of_pos hpos, div_self hpos.ne']
  · intro h
    show norm3 ((cross3 (b - a) (c - a)).divs
      (max (norm3 (cross3 (b - a) (c - a))) 1e-8)) < 1
    rw [norm3_divs, max_eq_right h.le, abs_of_pos (by norm_num : (0:ℝ) < 1e-8),
      div_lt_one (by norm_num : (0:ℝ) < 1e-8)]
    exact h

/-- Witness for C9: a unit right triangle gets a unit normal, and the fully
degenerate triangle gets a defined normal of length below 1. -/
theorem patch_normal_normalization_witness :
    (1e-8 ≤ norm3 (cross3 ((⟨1, 0, 0⟩ : Vec3) - ⟨0, 0, 0⟩)
        ((⟨0, 1, 0⟩ : Vec3) - ⟨0, 0, 0⟩)) ∧
      norm3 (patchNormal ⟨0, 0, 0⟩ ⟨1, 0, 0⟩ ⟨0, 1, 0⟩) = 1) ∧
    (norm3 (cross3 ((⟨0, 0, 0⟩ : Vec3) - ⟨0, 0, 0⟩)
        ((⟨0, 0, 0⟩ : Vec3) - ⟨0, 0, 0⟩)) < 1e-8 ∧
      norm3 (patchNormal ⟨0, 0, 0⟩ ⟨0, 0, 0⟩ ⟨0, 0, 0⟩) < 1) := by
  have hcr : (1e-8 : ℝ) ≤ norm3 (cross3 ((⟨1, 0, 0⟩ : Vec3) - ⟨0, 0, 0⟩)
      ((⟨0, 1, 0⟩ : Vec3) - ⟨0, 0, 0⟩)) := by
    norm_num [cross3, Vec3.sub_def, norm3, dot3, Real.sqrt_one]
  have hdg : norm3 (cross3 ((⟨0, 0, 0⟩ : Vec3) - ⟨0, 0, 0⟩)
      ((⟨0, 0, 0⟩ : Vec3) - ⟨0, 0, 0⟩)) < 1e-8 := by
    norm_num [cross3, Vec3.sub_def, norm3, dot3, Real.sqrt_zero]
  exact ⟨⟨hcr, (patch_normal_normalization ⟨0, 0, 0⟩ ⟨1, 0, 0⟩ ⟨0, 1, 0⟩).2.1 hcr⟩,
    ⟨hdg, (patch_normal_normalization ⟨0, 0, 0⟩ ⟨0, 0, 0⟩ ⟨0, 0, 0⟩).2.2 hdg⟩⟩

/-- C6: neither occlusion filter ever adds visibility: each output mask is a
subset of its input candidate mask. -/
theorem occlusion_filters_subset (raycastC raycastS : RayCaster)
    (positionsC positionsS : Fin n → Vec3) (camera_pos sun_direction : Vec3)
    (maskC maskS : Fin n → Prop) (j : Fin n) :
    (filter_occluded_patches raycastC positionsC camera_pos maskC j → maskC j) ∧
    (filter_sun_occluded raycastS positionsS maskS sun_direction j → maskS j) := by
  constructor
  · intro h
    by_cases hj : maskC j
    · exact hj
    · simp [filter_occluded_patches, hj] at h
  · intro h
    by_cases hj : maskS j
    · exact hj
    · simp [filter_sun_occluded, hj] at h

/-- Witness for C6 with a candidate set containing the only patch and a ray
caster reporting no hit: the patch survives each filter, and the theorem
recovers its membership in each input mask. -/
theorem occlusion_filters_subset_witness :
    ((0 : Fin 1).val < 5) ∧ ((0 : Fin 1).val < 5) :=
  ⟨(occlusion_filters_subset raycastEmpty raycastEmpty onePos zeroPos
      ⟨0, 0, 0⟩ ⟨0, 0, 1⟩ (fun i => i.val < 5) (fun i => i.val < 5) 0).1
      (by simp [filter_occluded_patches, isOccludedFromCamera, raycastEmpty]),
   (occlusion_filters_subset raycastEmpty raycastEmpty onePos zeroPos
      ⟨0, 0, 0⟩ ⟨0, 0, 1⟩ (fun i => i.val < 5) (fun i => i.val < 5) 0).2
      (by simp [filter_sun_occluded, isShadowed, raycastEmpty])⟩

/-- C10: both occlusion filters leave every entry outside the candidate set
unchanged: where the input mask is false, the output entry is identical to
the input entry. -/
theorem occlusion_filters_frame (raycastC raycastS : RayCaster)
    (positionsC positionsS : Fin n → Vec3) (camera_pos sun_direction : Vec3)
    (maskC maskS : Fin n → Prop) (j : Fin n)
    (hC : ¬ maskC j) (hS : ¬ maskS j) :
    (filter_occluded_patches raycastC positionsC camera_pos maskC j ↔ maskC j) ∧
    (filter_sun_occluded raycastS positionsS maskS sun_direction j ↔ maskS j) := by
  constructor
  · simp only [filter_occluded_patches]
    rw [if_neg hC]
  · simp only [filter_sun_occluded]
    rw [if_neg hS]

/-- C2: a candidate patch is marked shadowed (removed from the mask) by the
sun-occlusion test iff the ray caster, for the ray starting at the origin
offset from the patch along the negative normalised sun direction and
pointing along the sun direction, reports some intersection whose distance
from that origin is strictly below the patch-to-offset-origin distance `d`
minus the tolerance `d·1e-6 + 1e-8`. -/
theorem sun_occlusion_shadow_iff (raycast : RayCaster)
    (positions : Fin n → Vec3) (candidate_mask : Fin n → Prop)
    (sun_direction : Vec3) (j : Fin n) (hj : candidate_mask j) :
    (¬ filter_sun_occluded raycast positions candidate_mask sun_direction j) ↔
      (∃ loc ∈ raycast
          (positions j -
            (1e-2 : ℝ) • (sun_direction.divs (norm3 sun_direction)))
          (sun_direction.divs (norm3 sun_direction)),
        norm3 (loc - (positions j -
            (1e-2 : ℝ) • (sun_direction.divs (norm3 sun_direction)))) <
          norm3 (positions j - (positions j -
              (1e-2 : ℝ) • (sun_direction.divs (norm3 sun_direction)))) -
            (norm3 (positions j - (positions j -
                (1e-2 : ℝ) • (sun_direction.divs (norm3 sun_direction)))) *
              1e-6 + 1e-8)) := by
  simp only [filter_sun_occluded]
  rw [if_pos hj, not_not]
  exact Iff.rfl

/-- Witness for C2: the origin patch, lit along `(0, 0, 1)`, with a ray
caster that reports a hit at the ray origin itself; the hit is strictly
closer than the patch, so the patch is removed from the mask. -/
theorem sun_occlusion_shadow_iff_witness :
    ¬ filter_sun_occluded raycastSelf zeroPos (fun _ => True) ⟨0, 0, 1⟩
      (0 : Fin 1) := by
  refine (sun_occlusion_shadow_iff raycastSelf zeroPos (fun _ => True)
    ⟨0, 0, 1⟩ (0 : Fin 1) trivial).mpr ?_
  have hunit : (⟨0, 0, 1⟩ : Vec3).divs (norm3 ⟨0, 0, 1⟩) = ⟨0, 0, 1⟩ := by
    norm_num [Vec3.divs, norm3, dot3, Real.sqrt_one, Vec3.mk.injEq]
  rw [hunit]
  have horig : zeroPos (0 : Fin 1) - (1e-2 : ℝ) • (⟨0, 0, 1⟩ : Vec3) =
      ⟨0, 0, -1e-2⟩ := by
    norm_num [zeroPos, Vec3.sub_def, Vec3.smul_def, Vec3.mk.injEq]
  rw [horig]
  refine ⟨⟨0, 0, -1e-2⟩, by simp [raycastSelf], ?_⟩
  have h0 : norm3 ((⟨0, 0, -1e-2⟩ : Vec3) - ⟨0, 0, -1e-2⟩) = 0 := by
    norm_num [Vec3.sub_def, norm3, dot3, Real.sqrt_zero]
  have hd : norm3 (zeroPos (0 : Fin 1) - (⟨0, 0, -1e-2⟩ : Vec3)) = 1e-2 := by
    have hv : zeroPos (0 : Fin 1) - (⟨0, 0, -1e-2⟩ : Vec3) = ⟨0, 0, 1e-2⟩ := by
      norm_num [zeroPos, Vec3.sub_def, Vec3.mk.injEq]
    rw [hv]
    show Real.sqrt (0 * 0 + 0 * 0 + 1e-2 * 1e-2) = 1e-2
    rw [show (0 : ℝ) * 0 + 0 * 0 + 1e-2 * 1e-2 = (1e-2 : ℝ) ^ 2 from by
      norm_num]
    exact Real.sqrt_sq (by norm_num)
  rw [h0, hd]
  norm_num

/-- C3: a candidate patch is removed from the mask by the camera-occlusion
test iff the ray caster, for the ray from the camera toward the patch,
reports some intersection whose distance from the camera is strictly below
the camera-to-patch distance `d` minus the tolerance `d·1e-6 + 1e-8`; when
the ray caster reports no intersection at all no candidate is removed, and
an all-false candidate mask is returned unchanged. -/
theorem camera_occlusion_filter_spec (raycast : RayCaster)
    (positions : Fin n → Vec3) (camera_pos : Vec3)
    (candidate_mask : Fin n → Prop) (j : Fin n) :
    (candidate_mask j →
      ((¬ filter_occluded_patches raycast positions camera_pos candidate_mask j) ↔
        ∃ loc ∈ raycast camera_pos
            ((positions j - camera_pos).divs (norm3 (positions j - camera_pos))),
          norm3 (loc - camera_pos) <
            norm3 (positions j - camera_pos) -
              (norm3 (positions j - camera_pos) * 1e-6 + 1e-8))) ∧
    ((∀ o d, raycast o d = []) →
      (filter_occluded_patches raycast positions camera_pos candidate_mask j ↔
        candidate_mask j)) ∧
    ((∀ i, ¬ candidate_mask i) →
      (filter_occluded_patches raycast positions camera_pos candidate_mask j ↔
        candidate_mask j)) := by
  refine ⟨fun hj => ?_, fun hrc => ?_, fun hm => ?_⟩
  · simp only [filter_occluded_patches]
    rw [if_pos hj, not_not]
    exact Iff.rfl
  · simp only [filter_occluded_patches]
    by_cases hj : candidate_mask j
    · rw [if_pos hj]
      simp [isOccludedFromCamera, hrc, hj]
    · rw [if_neg hj]
  · simp only [filter_occluded_patches]
    rw [if_neg (hm j)]

/-- Witness for C3: a patch at `(0, 0, 1)` seen from the origin camera is
removed when the ray caster reports a hit at the camera itself, and the
all-false mask stays all false under the empty ray caster. -/
theorem camera_occlusion_filter_spec_witness :
    (¬ filter_occluded_patches raycastSelf onePos ⟨0, 0, 0⟩ (fun _ => True)
      (0 : Fin 1)) ∧
    (filter_occluded_patches raycastEmpty onePos ⟨0, 0, 0⟩ (fun _ => False)
        (0 : Fin 1) ↔ False) := by
  constructor
  · refine ((camera_occlusion_filter_spec raycastSelf onePos ⟨0, 0, 0⟩
      (fun _ => True) (0 : Fin 1)).1 trivial).mpr ?_
    refine ⟨⟨0, 0, 0⟩, by simp [raycastSelf], ?_⟩
    have h0 : norm3 ((⟨0, 0, 0⟩ : Vec3) - ⟨0, 0, 0⟩) = 0 := by
      norm_num [Vec3.sub_def, norm3, dot3, Real.sqrt_zero]
    have hd : norm3 (onePos (0 : Fin 1) - (⟨0, 0, 0⟩ : Vec3)) = 1 := by
      norm_num [onePos, Vec3.sub_def, norm3, dot3, Real.sqrt_one]
    rw [h0, hd]
    norm_num
  · exact (camera_occlusion_filter_spec raycastEmpty onePos ⟨0, 0, 0⟩
      (fun _ => False) (0 : Fin 1)).2.2 (fun _ => id)

/-- Witness for C10 at a patch outside both candidate sets. -/
theorem occlusion_filters_frame_witness :
    (filter_occluded_patches raycastEmpty onePos ⟨0, 0, 0⟩
        (fun i => i.val = 5) (0 : Fin 1) ↔ ((0 : Fin 1).val = 5)) ∧
    (filter_sun_occluded raycastEmpty zeroPos (fun i => i.val = 5) ⟨0, 0, 1⟩
        (0 : Fin 1) ↔ ((0 : Fin 1).val = 5)) :=
  occlusion_filters_frame raycastEmpty raycastEmpty onePos zeroPos
    ⟨0, 0, 0⟩ ⟨0, 0, 1⟩ (fun i => i.val = 5) (fun i => i.val = 5) 0
    (by decide) (by decide)

/-- When the camera sits exactly at the target, `z_cam` becomes the division
of the zero vector by zero, every `z` coordinate is `0`, the `in_front` test
fails for every patch, and the pipeline silently takes its short-circuit
path: no exception, an all-false mask, and the short-circuit stats. -/
lemma analyze_visibility_target_self (raycast : RayCaster)
    (positions normals : Fin n → Vec3) (camera_pos sun_direction : Vec3)
    (fov_x_deg fov_y_deg max_viewing_angle_deg max_sun_angle_deg
      max_reflection_angle_deg : ℝ) :
    analyze_visibility raycast positions normals camera_pos sun_direction
        camera_pos fov_x_deg fov_y_deg max_viewing_angle_deg max_sun_angle_deg
        max_reflection_angle_deg =
      some (fun _ => False, emptyStats n) := by
  have hfov : ∀ j, ¬ check_fov_visibility positions normals camera_pos
      camera_pos fov_x_deg fov_y_deg max_viewing_angle_deg j := by
    intro j
    rw [check_fov_visibility_iff]
    rintro ⟨h1, -⟩
    have hz : dot3 (positions j - camera_pos) (zcamOf camera_pos camera_pos)
        = 0 := by
      simp [zcamOf, Vec3.sub_def, Vec3.divs, dot3]
    rw [hz] at h1
    exact lt_irrefl 0 h1
  have hmask : ¬ ∃ j, filter_occluded_patches raycast positions camera_pos
      (check_fov_visibility positions normals camera_pos camera_pos fov_x_deg
        fov_y_deg max_viewing_angle_deg) j := by
    rintro ⟨j, hj⟩
    revert hj
    simp [filter_occluded_patches, hfov j]
  unfold analyze_visibility
  exact if_neg hmask

/-- C1: whenever the pipeline reaches the reflection stage with a non-empty
unoccluded candidate set, the stage does not apply the advertised
`R·V ≥ cos(min_reflection_angle_deg)` test at all: the call site omits the
`patch_normals` argument, shifting `camera_pos` into `patch_normals`,
`sun_direction` into `camera_pos` and the float angle into `sun_direction`,
and subscripting that float raises `TypeError`; the pipeline invocation
returns no result. -/
theorem reflection_stage_raises_type_error (raycast : RayCaster)
    (positions normals : Fin n → Vec3)
    (camera_pos sun_direction target : Vec3)
    (fov_x_deg fov_y_deg max_viewing_angle_deg max_sun_angle_deg
      max_reflection_angle_deg : ℝ)
    (h : ∃ j, filter_occluded_patches raycast positions camera_pos
      (check_fov_visibility positions normals camera_pos target fov_x_deg
        fov_y_deg max_viewing_angle_deg) j) :
    analyze_visibility raycast positions normals camera_pos sun_direction
      target fov_x_deg fov_y_deg max_viewing_angle_deg max_sun_angle_deg
      max_reflection_angle_deg = none := by
  unfold analyze_visibility
  exact if_pos h

/-- Witness for C1: in the concrete scene the origin patch passes the FOV
cull and the empty ray caster occludes nothing, so the unoccluded set is
non-empty and the pipeline invocation yields no result. -/
theorem reflection_stage_raises_type_error_witness :
    (∃ j, filter_occluded_patches raycastEmpty zeroPos sceneCam
      (check_fov_visibility zeroPos sceneNrm sceneCam ⟨0, 0, 0⟩ 90 90 60) j) ∧
    analyze_visibility raycastEmpty zeroPos sceneNrm sceneCam ⟨0, 0, 1⟩
      ⟨0, 0, 0⟩ 90 90 60 60 30 = none := by
  have hex : ∃ j, filter_occluded_patches raycastEmpty zeroPos sceneCam
      (check_fov_visibility zeroPos sceneNrm sceneCam ⟨0, 0, 0⟩ 90 90 60) j := by
    refine ⟨0, ?_⟩
    simp only [filter_occluded_patches]
    rw [if_pos scene_fov_visible]
    simp [isOccludedFromCamera, raycastEmpty]
  exact ⟨hex, reflection_stage_raises_type_error raycastEmpty zeroPos sceneNrm
    sceneCam ⟨0, 0, 1⟩ ⟨0, 0, 0⟩ 90 90 60 60 30 hex⟩

/-- C4: whenever the pipeline returns a result at all (the short-circuit
path), the returned stats carry `total_patches = 0`, not the patch count:
the eight positional arguments of the short-circuit constructor call bind
`len(self.patch_positions)` to `visible_indices`, and `total_patches` keeps
its default `0`. -/
theorem short_circuit_stats_total_patches (raycast : RayCaster)
    (positions normals : Fin n → Vec3)
    (camera_pos sun_direction target : Vec3)
    (fov_x_deg fov_y_deg max_viewing_angle_deg max_sun_angle_deg
      max_reflection_angle_deg : ℝ)
    (pr : (Fin n → Prop) × VisibilityStats ℕ ℝ ℝ)
    (h : analyze_visibility raycast positions normals camera_pos sun_direction
      target fov_x_deg fov_y_deg max_viewing_angle_deg max_sun_angle_deg
      max_reflection_angle_deg = some pr) :
    pr.2.total_patches = 0 ∧ pr.2.visible_indices = n := by
  have h' : (if ∃ j, filter_occluded_patches raycast positions camera_pos
        (check_fov_visibility positions normals camera_pos target fov_x_deg
          fov_y_deg max_viewing_angle_deg) j then
        (none : Option ((Fin n → Prop) × VisibilityStats ℕ ℝ ℝ))
      else some (fun _ => False, emptyStats n)) = some pr := h
  split at h'
  · exact absurd h' (by simp)
  · have hpr : (fun _ => False, emptyStats n) = pr := Option.some.inj h'
    rw [← hpr]
    exact ⟨rfl, rfl⟩

/-- Witness for C4: a concrete run on the short-circuit path (camera at the
target) returns stats whose `total_patches` is `0` even though the mesh has
one patch. -/
theorem short_circuit_stats_total_patches_witness :
    (analyze_visibility raycastEmpty zeroPos sceneNrm sceneCam ⟨0, 0, 1⟩
        sceneCam 90 90 60 60 30 = some (fun _ => False, emptyStats 1)) ∧
    (emptyStats 1).total_patches = 0 ∧ (emptyStats 1).visible_indices = 1 := by
  have hrun := analyze_visibility_target_self raycastEmpty zeroPos sceneNrm
    sceneCam ⟨0, 0, 1⟩ 90 90 60 60 30
  have hstats := short_circuit_stats_total_patches raycastEmpty zeroPos
    sceneNrm sceneCam ⟨0, 0, 1⟩ sceneCam 90 90 60 60 30
    (fun _ => False, emptyStats 1) hrun
  exact ⟨hrun, hstats⟩

/-- C8: with the camera placed exactly at the target (a zero view vector),
the pipeline does not fail fast: it silently returns the all-false mask and
the zero-total short-circuit stats for every ray caster, mesh, sun direction
and parameter set, instead of signalling a precondition violation. -/
theorem degenerate_target_silent_output (raycast : RayCaster)
    (positions normals : Fin n → Vec3) (camera_pos sun_direction : Vec3)
    (fov_x_deg fov_y_deg max_viewing_angle_deg max_sun_angle_deg
      max_reflection_angle_deg : ℝ) :
    analyze_visibility raycast positions normals camera_pos sun_direction
        camera_pos fov_x_deg fov_y_deg max_viewing_angle_deg max_sun_angle_deg
        max_reflection_angle_deg =
      some (fun _ => False, emptyStats n) :=
  analyze_visibility_target_self raycast positions normals camera_pos
    sun_direction fov_x_deg fov_y_deg max_viewing_angle_deg max_sun_angle_deg
    max_reflection_angle_deg

end AstroView
